import Mathlib

/-!
Verification of the git-protocol engine (pack codec, delta engine, pkt-line
framing, reference resolver) against its natural-language specification.
The Rust sources under git-protocol/src are shallowly embedded below: bytes
are natural numbers below 256, byte buffers are lists, fallible operations
return Except, and the wall clock is passed explicitly where the source
reads it.
-/

set_option maxRecDepth 40000

deriving instance DecidableEq for Except

namespace GitSpec

/-- Big-endian 4-byte encoding of a 32-bit value, as in Rust u32 to_be_bytes. -/
def be32 (n : Nat) : List Nat :=
  [n >>> 24 % 256, n >>> 16 % 256, n >>> 8 % 256, n % 256]

/-- Value of a big-endian byte list, as in Rust u32 from_be_bytes. -/
def be32val (l : List Nat) : Nat :=
  l.foldl (fun acc b => acc * 256 + b) 0

/-- Big-endian 8-byte encoding of a 64-bit value. -/
def be64 (n : Nat) : List Nat :=
  [n >>> 56 % 256, n >>> 48 % 256, n >>> 40 % 256, n >>> 32 % 256,
   n >>> 24 % 256, n >>> 16 % 256, n >>> 8 % 256, n % 256]

/-- Chunk-splitting worker; the fuel argument only bounds the recursion
depth (the initial list length always suffices, since each step removes at
least one element). -/
def chunkListAux (n : Nat) : Nat → List Nat → List (List Nat)
  | _, [] => []
  | 0, _ :: _ => []
  | fuel + 1, a :: rest =>
      (a :: rest).take n :: chunkListAux n fuel (rest.drop (n - 1))

/-- Split a byte list into successive chunks of n bytes (the last chunk may
be shorter).  Only used with n = 4 and n = 64. -/
def chunkList (n : Nat) (l : List Nat) : List (List Nat) :=
  chunkListAux n l.length l

/-- Truncation to 32 bits. -/
def w32 (x : Nat) : Nat := x % 4294967296

/-- Rotation of a 32-bit word left by n bits (for x below 2 to the 32). -/
def rotl (n x : Nat) : Nat := w32 ((x <<< n) ||| (x >>> (32 - n)))

/-- SHA-1 round function, by round index. -/
def sha1F (i b c d : Nat) : Nat :=
  if i < 20 then (b &&& c) ||| ((b ^^^ 4294967295) &&& d)
  else if i < 40 then b ^^^ c ^^^ d
  else if i < 60 then (b &&& c) ||| (b &&& d) ||| (c &&& d)
  else b ^^^ c ^^^ d

/-- SHA-1 round constant, by round index. -/
def sha1K (i : Nat) : Nat :=
  if i < 20 then 1518500249
  else if i < 40 then 1859775393
  else if i < 60 then 2400959708
  else 3395469782

/-- 32-bit words (big endian) of a 64-byte block. -/
def blockWords (block : List Nat) : List Nat :=
  (chunkList 4 block).map be32val

/-- Message-schedule extension; wrev holds the words produced so far, most
recent first. -/
def sha1Extend (wrev : List Nat) : Nat → List Nat
  | 0 => wrev.reverse
  | k + 1 =>
      sha1Extend
        (rotl 1 ((wrev.getD 2 0) ^^^ (wrev.getD 7 0) ^^^
                 (wrev.getD 13 0) ^^^ (wrev.getD 15 0)) :: wrev) k

/-- The 80-word message schedule of a 64-byte block. -/
def sha1Schedule (block : List Nat) : List Nat :=
  sha1Extend (blockWords block).reverse 64

/-- One SHA-1 round on the state (a,b,c,d,e) with (round index, word). -/
def sha1Round (st : Nat × Nat × Nat × Nat × Nat) (iw : Nat × Nat) :
    Nat × Nat × Nat × Nat × Nat :=
  match st, iw with
  | (a, b, c, d, e), (i, w) =>
      (w32 (rotl 5 a + sha1F i b c d + e + sha1K i + w), a, rotl 30 b, c, d)

/-- Compression of one 64-byte block into the running state. -/
def sha1Block (h : Nat × Nat × Nat × Nat × Nat) (block : List Nat) :
    Nat × Nat × Nat × Nat × Nat :=
  match h, (sha1Schedule block).enum.foldl sha1Round h with
  | (h0, h1, h2, h3, h4), (a, b, c, d, e) =>
      (w32 (h0 + a), w32 (h1 + b), w32 (h2 + c), w32 (h3 + d), w32 (h4 + e))

/-- SHA-1 padding: byte 0x80, zero fill, 8-byte big-endian bit length. -/
def sha1Pad (msg : List Nat) : List Nat :=
  msg ++ 128 :: List.replicate ((119 - msg.length % 64) % 64) 0 ++ be64 (8 * msg.length)

/-- Model of the external sha1 crate used by the pack codec: the full SHA-1
digest (20 bytes) of a byte list. -/
def sha1 (msg : List Nat) : List Nat :=
  match (chunkList 64 (sha1Pad msg)).foldl sha1Block
      (1732584193, 4023233417, 2562383102, 271733878, 3285377520) with
  | (h0, h1, h2, h3, h4) => be32 h0 ++ be32 h1 ++ be32 h2 ++ be32 h3 ++ be32 h4

/-! ## Data model (lib.rs) -/

/-- Git object types (lib.rs). -/
inductive ObjectType where
  | commit
  | tree
  | blob
  | tag
deriving DecidableEq, Repr

/-- Git object representation (lib.rs). -/
structure GitObject where
  id : String
  objType : ObjectType
  size : Nat
  content : List Nat
deriving DecidableEq, Repr

/-- Git pack entry (lib.rs). -/
structure PackEntry where
  objectType : ObjectType
  size : Nat
  data : List Nat
deriving DecidableEq, Repr

/-- Git pack file header (pack.rs). -/
structure PackHeader where
  signature : List Nat
  version : Nat
  numObjects : Nat
deriving DecidableEq, Repr

/-! ## Pack codec (pack.rs) -/

/-- get_object_type (pack.rs 301-309). -/
def getObjectType (typeId : Nat) : Except String ObjectType :=
  if typeId = 1 then .ok .commit
  else if typeId = 2 then .ok .tree
  else if typeId = 3 then .ok .blob
  else if typeId = 4 then .ok .tag
  else .error "Unknown object type"

/-- The size-continuation loop of parse_type_and_size (pack.rs 288-296). -/
def parseSizeBytes : List Nat → Nat → Nat → Except String (List Nat × Nat)
  | [], _, _ => .error "Eof"
  | b :: rest, size, shift =>
      let size := size ||| ((b &&& 127) <<< shift)
      if b &&& 128 = 0 then .ok (rest, size)
      else parseSizeBytes rest size (shift + 7)

/-- parse_type_and_size (pack.rs 281-299): high 3 bits of the first byte
after the continuation bit are the type, low 4 bits seed the size, further
bytes contribute 7 bits each while the continuation bit is set. -/
def parseTypeAndSize : List Nat → Except String (List Nat × (Nat × Nat))
  | [] => .error "Eof"
  | firstByte :: rest =>
      let objType := (firstByte >>> 4) &&& 7
      let size := firstByte &&& 15
      if firstByte &&& 128 ≠ 0 then
        match parseSizeBytes rest size 4 with
        | .error e => .error e
        | .ok (rem, size) => .ok (rem, (objType, size))
      else .ok (rest, (objType, size))

/-- Worker for the while loop of write_type_and_size; the fuel argument
only bounds the recursion depth (the starting value always suffices, since
each step divides the value by 128). -/
def writeSizeBytesAux : Nat → Nat → List Nat
  | _, 0 => []
  | 0, _ + 1 => []
  | fuel + 1, n + 1 =>
      let byte := (n + 1) &&& 127
      let rest := (n + 1) >>> 7
      (if rest > 0 then byte ||| 128 else byte) :: writeSizeBytesAux fuel rest

/-- The while loop of write_type_and_size (pack.rs 370-379). -/
def writeSizeBytes (n : Nat) : List Nat :=
  writeSizeBytesAux n n

/-- write_type_and_size (pack.rs 360-383). -/
def writeTypeAndSize (typeId size : Nat) : List Nat :=
  let firstByte := (typeId <<< 4) ||| (size &&& 15)
  let rest := size >>> 4
  if rest = 0 then [firstByte] else (firstByte ||| 128) :: writeSizeBytes rest

/-- The continuation loop of parse_offset (pack.rs 161-170). -/
def parseOffsetBytes : List Nat → Nat → Except String (List Nat × Nat)
  | [], _ => .error "Eof"
  | b :: rest, offset =>
      let offset := ((offset + 1) <<< 7) ||| (b &&& 127)
      if b &&& 128 = 0 then .ok (rest, offset)
      else parseOffsetBytes rest offset

/-- parse_offset (pack.rs 157-173): variable-length backward offset of an
OFS_DELTA object. -/
def parseOffset : List Nat → Except String (List Nat × Nat)
  | [] => .error "Eof"
  | firstByte :: rest =>
      let offset := firstByte &&& 127
      if firstByte &&& 128 ≠ 0 then parseOffsetBytes rest offset
      else .ok (rest, offset)

/-- read_sha1 (pack.rs 148-154); the 20 raw bytes are kept (the source
hex-encodes them, but every caller discards the value). -/
def readSha1Bytes (input : List Nat) : Except String (List Nat × List Nat) :=
  if input.length < 20 then .error "Eof"
  else .ok (input.drop 20, input.take 20)

/-- Model of the external flate2 zlib encoder (Compression::default).  The
claims under verification depend only on the codec interface, not on the
deflate bit format: the stream is self-delimiting and decoding inverts
encoding.  The model stream is the two zlib magic bytes, a 4-byte
big-endian payload length, then the payload. -/
def zlibEncode (content : List Nat) : List Nat :=
  120 :: 156 :: (be32 content.length ++ content)

/-- Model of the external flate2 zlib decoder driven by read_to_end: it
decodes one complete stream from the front of the buffer, stops at the
logical end of that stream ignoring any trailing bytes, and fails on a
malformed or truncated stream. -/
def zlibDecodeAll (input : List Nat) : Except String (List Nat) :=
  match input with
  | 120 :: 156 :: rest =>
      if rest.length < 4 then .error "corrupt deflate stream"
      else
        let len := be32val (rest.take 4)
        if len ≤ (rest.drop 4).length then .ok ((rest.drop 4).take len)
        else .error "corrupt deflate stream"
  | _ => .error "corrupt deflate stream"

/-- read_compressed_data_properly (pack.rs 176-180): the source assumes the
rest of the buffer is the compressed content and leaves no remaining
input. -/
def readCompressedDataProperly (input : List Nat) : List Nat × List Nat :=
  ([], input)

/-- parse_object_with_delta_support (pack.rs 99-145). -/
def parseObjectWithDeltaSupport (input : List Nat) :
    Except String (List Nat × PackEntry) := do
  let (input, ts) ← parseTypeAndSize input
  let typeId := ts.1
  let size := ts.2
  if typeId = 6 then do
    let (input, _offset) ← parseOffset input
    let rc := readCompressedDataProperly input
    pure (rc.1, ⟨.blob, size, rc.2⟩)
  else if typeId = 7 then do
    let (input, _baseSha) ← readSha1Bytes input
    let rc := readCompressedDataProperly input
    pure (rc.1, ⟨.blob, size, rc.2⟩)
  else do
    let objType ← getObjectType typeId
    let rc := readCompressedDataProperly input
    let data ← zlibDecodeAll rc.2
    pure (rc.1, ⟨objType, size, data⟩)

/-- The numeric type id written by create_pack (pack.rs 332-337). -/
def packTypeId : ObjectType → Nat
  | .commit => 1
  | .tree => 2
  | .blob => 3
  | .tag => 4

/-- The pack_data local of create_pack just before the checksum is
appended (pack.rs 323-348): PACK magic, version 2 and object count
big-endian, then per object the type-and-size header and the compressed
content. -/
def packBody (objects : List GitObject) : List Nat :=
  [80, 65, 67, 75] ++ be32 2 ++ be32 objects.length ++
    (objects.map fun obj =>
      writeTypeAndSize (packTypeId obj.objType) obj.size ++
        zlibEncode obj.content).flatten

/-- create_pack (pack.rs 322-357): the body above followed by the SHA-1
over everything written so far. -/
def createPack (objects : List GitObject) : List Nat :=
  packBody objects ++ sha1 (packBody objects)

/-- parse_header (pack.rs 83-96): nom tag "PACK" then two big-endian u32
fields. -/
def parseHeaderNom (input : List Nat) : Except String (List Nat × PackHeader) :=
  if input.take 4 = [80, 65, 67, 75] ∧ 12 ≤ input.length then
    .ok (input.drop 12,
      ⟨[80, 65, 67, 75], be32val ((input.drop 4).take 4),
        be32val ((input.drop 8).take 4)⟩)
  else .error "Failed to parse pack header"

/-- The object loop of GitProtocol::parse_pack (protocol.rs 90-99). -/
def parsePackLoop (count : Nat) (input : List Nat) :
    Except String (List PackEntry) :=
  match count with
  | 0 => .ok []
  | n + 1 =>
      match parseObjectWithDeltaSupport input with
      | .error _ => .error "Failed to parse pack object"
      | .ok (rest, entry) =>
          match parsePackLoop n rest with
          | .error e => .error e
          | .ok entries => .ok (entry :: entries)

/-- GitProtocol::parse_pack (protocol.rs 84-102): parse the header, then
parse num_objects sequential objects.  No checksum verification happens
here. -/
def parsePack (data : List Nat) : Except String (List PackEntry) :=
  match parseHeaderNom data with
  | .error _ => .error "Failed to parse pack header"
  | .ok (rest, header) => parsePackLoop header.numObjects rest

/-- parse_pack_file_simple (pack.rs 36-80): the SHA-1 over every byte before
the 20-byte trailer is verified first, then the signature and version; the
source returns an empty entry list (object records are never parsed here).
The bookkeeping insertion into self.objects does not affect the returned
value and is omitted. -/
def parsePackFileSimple (data : List Nat) : Except String (List PackEntry) :=
  if data.length < 32 then .error "Pack file too small"
  else
    let packData := data.take (data.length - 20)
    let checksumBytes := data.drop (data.length - 20)
    if sha1 packData ≠ checksumBytes then
      .error "Pack file checksum verification failed"
    else
      let headerBytes := packData.take 12
      if headerBytes.take 4 ≠ [80, 65, 67, 75] then .error "Invalid pack signature"
      else
        let version := be32val ((headerBytes.drop 4).take 4)
        if version ≠ 2 then .error "Unsupported pack version"
        else .ok []

/-! ## Delta engine (pack.rs apply_delta and read_varint) -/

/-- The for loop of read_varint (pack.rs 259-279); value, consumed and
shift thread the mutable locals. -/
def readVarintAux : List Nat → Nat → Nat → Nat → Except String (Nat × Nat)
  | [], value, consumed, _ => .ok (value, consumed)
  | b :: rest, value, consumed, shift =>
      let consumed := consumed + 1
      let value := value ||| ((b &&& 127) <<< shift)
      if b &&& 128 = 0 then .ok (value, consumed)
      else if consumed > 8 then .error "Invalid varint encoding"
      else readVarintAux rest value consumed (shift + 7)

/-- read_varint (pack.rs 259-279). -/
def readVarint (data : List Nat) : Except String (Nat × Nat) :=
  readVarintAux data 0 0 0

/-- Rust slice indexing: a read out of bounds panics in the source and is
modelled as an error value. -/
def readByteAt (delta : List Nat) (pos : Nat) : Except String Nat :=
  if h : pos < delta.length then .ok delta[pos] else .error "index out of bounds"

/-- The offset-reading loop of a copy instruction (pack.rs 218-223): for
each set bit among the low four, the byte at the cursor contributes 8 bits
and the cursor advances.  Returns the offset and the bytes consumed. -/
def copyOffset (delta : List Nat) (instruction pos : Nat) :
    Except String (Nat × Nat) := do
  let st : Nat × Nat := (0, 0)
  let st ← if instruction &&& 1 ≠ 0 then do
      let b ← readByteAt delta (pos + st.2)
      pure (st.1 ||| b, st.2 + 1)
    else pure st
  let st ← if instruction &&& 2 ≠ 0 then do
      let b ← readByteAt delta (pos + st.2)
      pure (st.1 ||| (b <<< 8), st.2 + 1)
    else pure st
  let st ← if instruction &&& 4 ≠ 0 then do
      let b ← readByteAt delta (pos + st.2)
      pure (st.1 ||| (b <<< 16), st.2 + 1)
    else pure st
  let st ← if instruction &&& 8 ≠ 0 then do
      let b ← readByteAt delta (pos + st.2)
      pure (st.1 ||| (b <<< 24), st.2 + 1)
    else pure st
  pure st

/-- The size-reading loop of a copy instruction (pack.rs 226-230).  The
source never increments delta_pos inside this loop: every set bit among
bits 4..6 reads the byte at the same cursor position and the cursor is left
where it was, so this function consumes zero bytes. -/
def copySize (delta : List Nat) (instruction pos : Nat) : Except String Nat := do
  let sz : Nat := 0
  let sz ← if instruction &&& 16 ≠ 0 then do
      let b ← readByteAt delta pos
      pure (sz ||| b)
    else pure sz
  let sz ← if instruction &&& 32 ≠ 0 then do
      let b ← readByteAt delta pos
      pure (sz ||| (b <<< 8))
    else pure sz
  let sz ← if instruction &&& 64 ≠ 0 then do
      let b ← readByteAt delta pos
      pure (sz ||| (b <<< 16))
    else pure sz
  pure sz

/-- The instruction loop of apply_delta (pack.rs 208-249).  pos is the
cursor delta_pos, result the accumulated output.  The fuel argument only
bounds the recursion depth: the cursor strictly increases each iteration
and the loop stops once it reaches the end, so any fuel above
delta.length - pos suffices and the out-of-fuel branch is unreachable from
applyDelta. -/
def deltaLoop (base delta : List Nat) : Nat → Nat → List Nat →
    Except String (List Nat)
  | 0, _, _ => .error "unreachable: out of fuel"
  | fuel + 1, pos, result =>
    if h : pos < delta.length then
      let instruction := delta[pos]
      if instruction &&& 128 ≠ 0 then
        match copyOffset delta instruction (pos + 1) with
        | .error e => .error e
        | .ok oc =>
            match copySize delta instruction (pos + 1 + oc.2) with
            | .error e => .error e
            | .ok size0 =>
                let size := if size0 = 0 then 65536 else size0
                let result :=
                  if oc.1 + size ≤ base.length then
                    result ++ ((base.drop oc.1).take size)
                  else result
                deltaLoop base delta fuel (pos + 1 + oc.2) result
      else if instruction ≠ 0 then
        if pos + 1 + instruction ≤ delta.length then
          deltaLoop base delta fuel (pos + 1 + instruction)
            (result ++ ((delta.drop (pos + 1)).take instruction))
        else deltaLoop base delta fuel (pos + 1) result
      else deltaLoop base delta fuel (pos + 1) result
    else .ok result

/-- apply_delta (pack.rs 195-256): the two leading varints give base and
result sizes, then the instruction loop runs, and the output is rejected if
its length differs from the declared result size. -/
def applyDelta (base delta : List Nat) : Except String (List Nat) := do
  let v1 ← readVarint delta
  let v2 ← readVarint (delta.drop v1.2)
  let result ← deltaLoop base delta (delta.length + 1) (v1.2 + v2.2) []
  if result.length ≠ v2.1 then .error "Delta application resulted in wrong size"
  else pure result

/-! ## pkt-line framing (protocol.rs) -/

/-- One byte within a continuation-class range; returns the remaining
bytes when it is present and in range. -/
def utf8ContRange (lo hi : Nat) : List Nat → Option (List Nat)
  | c :: rest => if lo ≤ c ∧ c ≤ hi then some rest else none
  | [] => none

/-- The continuation bytes demanded by one non-ASCII leading byte, per the
std UTF-8 acceptance automaton (overlongs and surrogates rejected,
four-byte forms capped at U+10FFFF): returns the bytes after the complete
character, or none when the sequence is invalid. -/
def utf8Step (b : Nat) (rest : List Nat) : Option (List Nat) :=
  if 194 ≤ b ∧ b ≤ 223 then utf8ContRange 128 191 rest
  else if b = 224 then (utf8ContRange 160 191 rest).bind (utf8ContRange 128 191)
  else if 225 ≤ b ∧ b ≤ 236 then
    (utf8ContRange 128 191 rest).bind (utf8ContRange 128 191)
  else if b = 237 then (utf8ContRange 128 159 rest).bind (utf8ContRange 128 191)
  else if 238 ≤ b ∧ b ≤ 239 then
    (utf8ContRange 128 191 rest).bind (utf8ContRange 128 191)
  else if b = 240 then
    ((utf8ContRange 144 191 rest).bind (utf8ContRange 128 191)).bind
      (utf8ContRange 128 191)
  else if 241 ≤ b ∧ b ≤ 243 then
    ((utf8ContRange 128 191 rest).bind (utf8ContRange 128 191)).bind
      (utf8ContRange 128 191)
  else if b = 244 then
    ((utf8ContRange 128 143 rest).bind (utf8ContRange 128 191)).bind
      (utf8ContRange 128 191)
  else none

/-- Character loop of the validity check; the fuel argument only bounds the
recursion depth (each step consumes at least one byte, so the list length
always suffices). -/
def utf8ValidAux : Nat → List Nat → Bool
  | _, [] => true
  | 0, _ :: _ => false
  | fuel + 1, b :: rest =>
      if b < 128 then utf8ValidAux fuel rest
      else
        match utf8Step b rest with
        | some rest2 => utf8ValidAux fuel rest2
        | none => false

/-- Model of Rust str::from_utf8 validity. -/
def utf8Valid (l : List Nat) : Bool := utf8ValidAux l.length l

/-- Hex value of one ASCII byte, as char::to_digit(16). -/
def hexDigitVal (c : Nat) : Option Nat :=
  if 48 ≤ c ∧ c ≤ 57 then some (c - 48)
  else if 97 ≤ c ∧ c ≤ 102 then some (c - 87)
  else if 65 ≤ c ∧ c ≤ 70 then some (c - 55)
  else none

/-- Digit loop of u16::from_str_radix for a non-negative number: checked
multiply-accumulate against the u16 maximum. -/
def fromRadixPos : List Nat → Nat → Option Nat
  | [], acc => some acc
  | c :: rest, acc =>
      match hexDigitVal c with
      | none => none
      | some d =>
          if acc * 16 + d > 65535 then none
          else fromRadixPos rest (acc * 16 + d)

/-- Model of the std function u16::from_str_radix(s, 16) on the UTF-8 bytes
of s: an optional leading plus sign (byte 43) followed by at least one hex
digit, with u16 overflow checking.  u16 is unsigned, so the sign match in
core's from_str_radix never takes the minus path (it is guarded by
is_signed_ty): a leading minus sign falls through to the digit loop and
fails there as an invalid digit. -/
def fromStrRadix16 : List Nat → Option Nat
  | [] => none
  | c :: rest =>
      if c = 43 then (if rest = [] then none else fromRadixPos rest 0)
      else fromRadixPos (c :: rest) 0

/-- Hex value of a byte assumed to be a hex digit (0 otherwise). -/
def hexDigitValD (d : Nat) : Nat := (hexDigitVal d).getD 0

/-- The number denoted by a big-endian hex digit string, folded onto an
accumulator. -/
def hexFoldVal (acc : Nat) (ds : List Nat) : Nat :=
  ds.foldl (fun a d => a * 16 + hexDigitValD d) acc

/-- Every byte of the list is an ASCII hex digit. -/
def allHexDigits (ds : List Nat) : Bool :=
  ds.all (fun d => (hexDigitVal d).isSome)

/-- ASCII code of a lowercase hex digit. -/
def hexDigitChr (d : Nat) : Nat := if d < 10 then 48 + d else 87 + d

/-- Minimal big-endian lowercase hex digits of a positive number; the fuel
argument only bounds the recursion depth (the value itself suffices). -/
def hexRepAux : Nat → Nat → List Nat
  | _, 0 => []
  | 0, _ + 1 => []
  | fuel + 1, n + 1 => hexRepAux fuel ((n + 1) / 16) ++ [hexDigitChr ((n + 1) % 16)]

/-- Model of the std formatter {:04x}: minimal lowercase hex digits,
left-padded with zeros to at least four characters. -/
def toHexPad4 (n : Nat) : List Nat :=
  let ds := if n = 0 then [48] else hexRepAux n n
  List.replicate (4 - ds.length) 48 ++ ds

/-- Model of str::trim_end_matches with pattern newline: all trailing
newline bytes removed (a trailing 0x0A byte is always a newline char, since
UTF-8 continuation bytes are at least 0x80). -/
def trimEndNl (l : List Nat) : List Nat :=
  (l.reverse.dropWhile (fun b => b = 10)).reverse

/-- The while loop of GitProtocol::parse_pkt_line (protocol.rs 109-147),
processing the buffer from the front.  Fewer than four remaining bytes stop
the loop without error; a zero length is a flush and stops the loop; the
accumulated lines are returned.  The fuel argument only bounds the
recursion depth: every iteration consumes at least four bytes, so the fuel
used by parsePktLine is never exhausted. -/
def parsePktLineAux : Nat → List Nat → Except String (List (List Nat))
  | 0, _ => .error "unreachable: out of fuel"
  | fuel + 1, data =>
      if data.length < 4 then .ok []
      else
        let pre := data.take 4
        if utf8Valid pre then
          match fromStrRadix16 pre with
          | none => .error "Invalid hex length"
          | some len =>
              if len = 0 then .ok []
              else if len < 4 then .error "Invalid packet length"
              else
                let rest := data.drop 4
                let clen := len - 4
                if clen ≤ rest.length then
                  let content := rest.take clen
                  if utf8Valid content then
                    match parsePktLineAux fuel (rest.drop clen) with
                    | .ok lines => .ok (trimEndNl content :: lines)
                    | .error e => .error e
                  else .error "Invalid UTF-8 in packet content"
                else .error "Packet extends beyond data"
        else .error "Invalid UTF-8 in length prefix"

/-- GitProtocol::parse_pkt_line (protocol.rs 109-147).  Lines are modelled
as their UTF-8 byte lists. -/
def parsePktLine (data : List Nat) : Except String (List (List Nat)) :=
  parsePktLineAux (data.length + 1) data

/-- GitProtocol::create_pkt_line (protocol.rs 149-167): each line is framed
as four hex digits of len(line)+1+4, the line, a newline; a flush packet
0000 terminates. -/
def createPktLine (lines : List (List Nat)) : List Nat :=
  (lines.map fun line => toHexPad4 (line.length + 1 + 4) ++ line ++ [10]).flatten
    ++ [48, 48, 48, 48]

/-! ## Reference resolver (refs.rs) -/

/-- Git reference (lib.rs). -/
structure GitRef where
  name : String
  target : String
  isSymbolic : Bool
deriving DecidableEq, Repr

/-- Lookup in the RefHandler refs map, modelled as an association list
keyed by ref name with at most one entry per name. -/
def refsGet (refs : List (String × GitRef)) (name : String) : Option GitRef :=
  (refs.find? (fun p => p.1 == name)).map (fun p => p.2)

/-- The loop of resolve_ref (refs.rs 69-84), with the visited set as a
list.  The fuel argument only bounds the iteration count; none signals fuel
exhaustion and is never returned for the fuel used by resolveRef. -/
def resolveRefAux (refs : List (String × GitRef)) :
    Nat → String → List String → Option (Except String String)
  | 0, _, _ => none
  | fuel + 1, current, visited =>
      if visited.contains current then
        some (.error ("Circular reference detected: " ++ current))
      else
        match refsGet refs current with
        | some r =>
            if r.isSymbolic then resolveRefAux refs fuel r.target (current :: visited)
            else some (.ok r.target)
        | none => some (.error ("Reference " ++ current ++ " not found"))

/-- resolve_ref (refs.rs 65-85): follow the symbolic chain with a visited
set.  Each non-final iteration inserts a distinct ref name into the visited
set, so one iteration per distinct name plus one always suffices and the
fallback value is unreachable. -/
def resolveRef (refs : List (String × GitRef)) (name : String) :
    Except String String :=
  (resolveRefAux refs ((refs.map Prod.fst).dedup.length + 1) name []).getD
    (.error "unreachable")

/-- A symbolic chain through the ref map: the listed names are looked up in
order, each resolving symbolically to the next, and the last is a
non-symbolic ref whose target is the given id (the first non-symbolic ref
reached from the head of the list). -/
def IsRefChain (refs : List (String × GitRef)) : List String → String → Prop
  | [], _ => False
  | [n], id =>
      ∃ r, refsGet refs n = some r ∧ r.isSymbolic = false ∧ r.target = id
  | n :: m :: rest, id =>
      ∃ r, refsGet refs n = some r ∧ r.isSymbolic = true ∧ r.target = m ∧
        IsRefChain refs (m :: rest) id

/-! ## Object model (objects.rs) -/

/-- Parsed commit record (objects.rs Commit); text fields are modelled as
character lists, DateTime values as Unix timestamps. -/
structure CommitRec where
  tree : List Char
  parents : List (List Char)
  author : List Char
  committer : List Char
  message : List Char
  authorDate : Nat
  commitDate : Nat
deriving DecidableEq, Repr

/-- Mutable locals of parse_commit while scanning header lines. -/
structure PCAcc where
  tree : List Char
  parents : List (List Char)
  author : List Char
  committer : List Char
  authorDate : Nat
  commitDate : Nat
  messageStart : Nat
deriving DecidableEq, Repr

/-- Split a character list at every newline; the piece after the last
newline is kept even when empty. -/
def chSplitNl : List Char → List (List Char)
  | [] => [[]]
  | c :: rest =>
      if c = '\n' then [] :: chSplitNl rest
      else
        match chSplitNl rest with
        | [] => [[c]]
        | p :: ps => (c :: p) :: ps

/-- One trailing carriage return removed, as Rust str lines does per line. -/
def stripCr (l : List Char) : List Char :=
  match l.reverse with
  | '\r' :: restRev => restRev.reverse
  | _ => l

/-- Model of Rust str lines on a character list: split at newlines, drop
the one empty piece after a trailing newline, strip a trailing carriage
return per line. -/
def rustLines (s : List Char) : List (List Char) :=
  let parts := chSplitNl s
  let parts :=
    match parts.reverse with
    | [] :: restRev => restRev.reverse
    | _ => parts
  parts.map stripCr

/-- Newline-joined list of lines, as Vec join with newline. -/
def joinNl : List (List Char) → List Char
  | [] => []
  | [l] => l
  | l :: rest => l ++ '\n' :: joinNl rest

/-- The header-line loop of parse_commit (objects.rs 83-100).  The source
reads the wall clock (Utc::now) for author_date and commit_date instead of
the embedded timestamps; the clock value is the explicit argument now.  The
loop stops at the first empty line, recording where the message starts. -/
def parseCommitLoop (now : Nat) : List (List Char) → Nat → PCAcc → PCAcc
  | [], _, st => st
  | line :: rest, i, st =>
      if "tree ".data.isPrefixOf line then
        parseCommitLoop now rest (i + 1) { st with tree := line.drop 5 }
      else if "parent ".data.isPrefixOf line then
        parseCommitLoop now rest (i + 1) { st with parents := st.parents ++ [line.drop 7] }
      else if "author ".data.isPrefixOf line then
        parseCommitLoop now rest (i + 1) { st with author := line.drop 7, authorDate := now }
      else if "committer ".data.isPrefixOf line then
        parseCommitLoop now rest (i + 1) { st with committer := line.drop 10, commitDate := now }
      else if line = [] then { st with messageStart := i + 1 }
      else parseCommitLoop now rest (i + 1) st

/-- parse_commit (objects.rs 71-113), on the decoded text of the commit
content (from_utf8_lossy), modelled as a character list, with the wall
clock passed explicitly. -/
def parseCommit (now : Nat) (content : List Char) : CommitRec :=
  let lines := rustLines content
  let st := parseCommitLoop now lines 0 ⟨[], [], [], [], now, now, 0⟩
  { tree := st.tree
    parents := st.parents
    author := st.author
    committer := st.committer
    message := joinNl (lines.drop st.messageStart)
    authorDate := st.authorDate
    commitDate := st.commitDate }

/-! ## Concrete inputs used by the verification -/

/-- The bytes of "hello world". -/
def demoBase : List Nat := [104, 101, 108, 108, 111, 32, 119, 111, 114, 108, 100]

/-- The delta stream varint 11, varint 17, copy offset 0 size 5 (0x90 0x05),
insert " there" (0x06 then six literal bytes), copy offset 5 size 6
(0x91 0x05 0x06). -/
def demoDelta : List Nat := [11, 17, 144, 5, 6, 32, 116, 104, 101, 114, 101, 145, 5, 6]

/-- The bytes of "hello there world". -/
def demoTarget : List Nat :=
  [104, 101, 108, 108, 111, 32, 116, 104, 101, 114, 101, 32, 119, 111, 114, 108, 100]

/-- A one-byte blob holding "a". -/
def blobA : GitObject := ⟨"", .blob, 1, [97]⟩

/-- A one-byte blob holding "b". -/
def blobB : GitObject := ⟨"", .blob, 1, [98]⟩

/-- A commit text whose author and committer lines embed the Unix timestamp
1234567890 with offset +0000. -/
def demoCommitText : List Char :=
  ("tree 4b825dc642cb6eb9a060e54bf8d69288fbee4904\n" ++
   "parent 1111111111111111111111111111111111111111\n" ++
   "author Alice <alice@example.com> 1234567890 +0000\n" ++
   "committer Bob <bob@example.com> 1234567890 +0000\n" ++
   "\nhello\n").data

/-- Ref map HEAD to refs/heads/main (symbolic) to a given id
(non-symbolic). -/
def refsChainDemo (id : String) : List (String × GitRef) :=
  [("HEAD", ⟨"HEAD", "refs/heads/main", true⟩),
   ("refs/heads/main", ⟨"refs/heads/main", id, false⟩)]

/-- The 40-character id made of the letter a. -/
def hashA : String := String.mk (List.replicate 40 'a')

/-- Cyclic ref map HEAD to A to B to A, all symbolic. -/
def refsCycleDemo : List (String × GitRef) :=
  [("HEAD", ⟨"HEAD", "A", true⟩), ("A", ⟨"A", "B", true⟩),
   ("B", ⟨"B", "A", true⟩)]

/-! ## Helper lemmas -/

/-- A big-endian 4-byte encoding has four bytes. -/
theorem be32_length (n : Nat) : (be32 n).length = 4 := rfl

/-- A SHA-1 digest has twenty bytes. -/
theorem sha1_length (msg : List Nat) : (sha1 msg).length = 20 := by
  unfold sha1
  rcases (chunkList 64 (sha1Pad msg)).foldl sha1Block
      (1732584193, 4023233417, 2562383102, 271733878, 3285377520) with
    ⟨h0, h1, h2, h3, h4⟩
  simp [be32]

/-- The pack body is at least as long as its 12-byte header. -/
theorem packBody_length (objects : List GitObject) :
    12 ≤ (packBody objects).length := by
  simp [packBody, be32]

/-! ## Claim theorems -/

/-- C1: parse_pack of create_pack reproduces the (type, content) pairs of a
single-object pack, but fails on a two-object pack: the first object's
compressed-data read consumes the whole remaining buffer (rest-of-buffer
assumption in read_compressed_data_properly), so the parse of the second
object hits end of input and parse_pack returns an error instead of the two
objects the claim requires. -/
theorem c1_pack_round_trip_fails_at_two_objects :
    parsePack (createPack [blobA]) =
      .ok [{ objectType := .blob, size := 1, data := [97] }] ∧
    parsePack (createPack [blobA, blobB]) =
      .error "Failed to parse pack object" := by
  decide

/-- C3: applying the specification's demonstration delta (copy 0 5, insert
" there", copy 5 6) to "hello world" does not produce "hello there world":
the copy-size loop never advances the cursor past the size bytes it read,
the following bytes are misread as instructions, and apply_delta ends with
a wrong-size error. -/
theorem c3_copy_size_cursor_not_advanced :
    applyDelta demoBase demoDelta ≠ .ok demoTarget ∧
    applyDelta demoBase demoDelta =
      .error "Delta application resulted in wrong size" := by
  decide

/-- C4: parse_commit stores the wall-clock value in author_date and
commit_date even though the input embeds the timestamp 1234567890, so the
result depends on the clock and not only on the input bytes: the same
commit text parsed under clock values 0 and 1 yields different records. -/
theorem c4_commit_dates_follow_wall_clock :
    (parseCommit 0 demoCommitText).authorDate = 0 ∧
    (parseCommit 0 demoCommitText).commitDate = 0 ∧
    (parseCommit 1 demoCommitText).authorDate = 1 ∧
    parseCommit 0 demoCommitText ≠ parseCommit 1 demoCommitText := by
  decide

/-- C8: for every type id in 1..4 and every size in the specification's
boundary set, write_type_and_size followed by parse_type_and_size recovers
exactly the pair and consumes exactly the emitted bytes (no remaining
input). -/
theorem c8_type_and_size_header_symmetry (t s : Nat)
    (ht : t ∈ [1, 2, 3, 4])
    (hs : s ∈ [0, 15, 16, 255, 256, 65535, 65536]) :
    parseTypeAndSize (writeTypeAndSize t s) = .ok ([], (t, s)) := by
  fin_cases ht <;> fin_cases hs <;> decide

/-- Witness for C8 at type id 4 and size 65536. -/
theorem c8_witness :
    parseTypeAndSize (writeTypeAndSize 4 65536) = .ok ([], (4, 65536)) :=
  c8_type_and_size_header_symmetry 4 65536 (by decide) (by decide)

/-- C9 counterexample: a delta whose instruction stream is exactly the
invalid byte 0 (base size 0, result size 0) is not rejected: apply_delta
silently skips the byte and returns the empty output, which matches the
declared result size, instead of the typed format error the claim
requires. -/
theorem c9_counterexample : applyDelta [] [0, 0, 0] = .ok [] := by decide

/-- C9 amended: an instruction byte 0 is silently skipped: the loop
consumes it, contributes nothing to the output, and continues; apply_delta
can reject such a delta only through the final check that the output length
equals the declared result size. -/
theorem c9_zero_instruction_skipped :
    (∀ base delta : List Nat, ∀ fuel pos : Nat, ∀ result : List Nat,
      pos < delta.length → delta.getD pos 0 = 0 →
      deltaLoop base delta (fuel + 1) pos result =
        deltaLoop base delta fuel (pos + 1) result) ∧
    applyDelta [] [0, 1, 0] =
      .error "Delta application resulted in wrong size" := by
  constructor
  · intro base delta fuel pos result hlt h0
    have hg : delta[pos] = 0 := by
      rwa [List.getD_eq_getElem _ _ hlt] at h0
    simp [deltaLoop, hlt, hg]
  · decide

/-- Witness for C9 amended: the skip step at a concrete delta, plus the
wrong-size rejection after a skipped zero byte. -/
theorem c9_witness :
    deltaLoop [] [0] 6 0 [] = deltaLoop [] [0] 5 1 [] ∧
    applyDelta [] [0, 1, 0] =
      .error "Delta application resulted in wrong size" :=
  ⟨c9_zero_instruction_skipped.1 [] [0] 5 0 [] (by decide) (by decide),
   c9_zero_instruction_skipped.2⟩

/-- C6 counterexample: an input truncated inside the 4-byte length prefix
(two bytes remain) does not produce an error: parse_pkt_line stops and
returns the empty line list. -/
theorem c6_counterexample : parsePktLine [97, 98] = .ok [] := by decide

/-- C6 amended: with a full 4-byte length prefix present, parse_pkt_line
returns an error when the prefix is not valid UTF-8, when
u16::from_str_radix rejects it (any byte that is not a hex digit — a minus
sign included, u16 being unsigned — except an accepted leading plus sign),
and when the declared length exceeds the remaining buffer; but an input
truncated inside the length prefix (1 to 3 bytes remaining) stops the loop
and returns the lines parsed so far instead of erroring. -/
theorem c6_malformed_inputs :
    (∀ data : List Nat, 0 < data.length → data.length < 4 →
      parsePktLine data = .ok []) ∧
    (∀ data : List Nat, ¬ data.length < 4 → utf8Valid (data.take 4) = false →
      parsePktLine data = .error "Invalid UTF-8 in length prefix") ∧
    (∀ data : List Nat, ¬ data.length < 4 → utf8Valid (data.take 4) = true →
      fromStrRadix16 (data.take 4) = none →
      parsePktLine data = .error "Invalid hex length") ∧
    (∀ data : List Nat, ∀ len : Nat, ¬ data.length < 4 →
      utf8Valid (data.take 4) = true →
      fromStrRadix16 (data.take 4) = some len → len ≠ 0 → ¬ len < 4 →
      (data.drop 4).length < len - 4 →
      parsePktLine data = .error "Packet extends beyond data") := by
  refine ⟨?_, ?_, ?_, ?_⟩
  · intro data _ h4
    simp [parsePktLine, parsePktLineAux, h4]
  · intro data h4 hu
    simp [parsePktLine, parsePktLineAux, h4, hu]
  · intro data h4 hu hx
    simp [parsePktLine, parsePktLineAux, h4, hu, hx]
  · intro data len h4 hu hx h0 hlt hover
    simp only [parsePktLine, parsePktLineAux]
    rw [if_neg h4, if_pos hu, hx]
    simp only []
    rw [if_neg h0, if_neg hlt, if_neg (by omega)]

/-- Witness for C6 amended: a truncated input returns ok; a non-UTF-8
prefix, a non-hex prefix, a minus-signed prefix (rejected for the unsigned
u16) and an overlong declared length each error. -/
theorem c6_witness :
    parsePktLine [97, 98, 99] = .ok [] ∧
    parsePktLine [255, 255, 255, 255] =
      .error "Invalid UTF-8 in length prefix" ∧
    parsePktLine [122, 122, 122, 122] = .error "Invalid hex length" ∧
    parsePktLine [45, 48, 48, 48] = .error "Invalid hex length" ∧
    parsePktLine [48, 48, 48, 57, 97] = .error "Packet extends beyond data" :=
  ⟨c6_malformed_inputs.1 [97, 98, 99] (by decide) (by decide),
   c6_malformed_inputs.2.1 [255, 255, 255, 255] (by decide) (by decide),
   c6_malformed_inputs.2.2.1 [122, 122, 122, 122] (by decide) (by decide)
     (by decide),
   c6_malformed_inputs.2.2.1 [45, 48, 48, 48] (by decide) (by decide)
     (by decide),
   c6_malformed_inputs.2.2.2 [48, 48, 48, 57, 97] 9 (by decide) (by decide)
     (by decide) (by decide) (by decide) (by decide)⟩

/-- The create_pack output splits into the body and the stored digest. -/
theorem createPack_eq (objects : List GitObject) :
    createPack objects = packBody objects ++ sha1 (packBody objects) := rfl

/-- Length of a created pack. -/
theorem createPack_length (objects : List GitObject) :
    (createPack objects).length = (packBody objects).length + 20 := by
  rw [createPack_eq, List.length_append, sha1_length]

/-- C2: flipping any byte of the body of a created pack (any position
before the 20-byte trailer) to a different value makes
parse_pack_file_simple fail with the checksum error, provided the flip
changes the SHA-1 digest of the body (the recomputed digest is compared
against the stored trailer before any other field of the pack is
inspected). -/
theorem c2_byte_flip_rejected_by_checksum (objects : List GitObject)
    (i b : Nat)
    (hi : i < (createPack objects).length - 20)
    (hb : b ≠ (createPack objects).getD i 0)
    (hdig : sha1 (((createPack objects).set i b).take
        ((createPack objects).length - 20)) ≠
      sha1 ((createPack objects).take ((createPack objects).length - 20))) :
    parsePackFileSimple ((createPack objects).set i b) =
      .error "Pack file checksum verification failed" := by
  have hBlen := packBody_length objects
  have hlen := createPack_length objects
  have hi2 : i < (packBody objects).length := by omega
  have hset : (createPack objects).set i b =
      (packBody objects).set i b ++ sha1 (packBody objects) := by
    rw [createPack_eq]
    exact List.set_append_left _ _ hi2
  have h20 : (createPack objects).length - 20 = (packBody objects).length := by
    omega
  have htake1 : ((packBody objects).set i b ++ sha1 (packBody objects)).take
      ((packBody objects).length) = (packBody objects).set i b :=
    List.take_left' (by simp)
  have htake2 : (packBody objects ++ sha1 (packBody objects)).take
      ((packBody objects).length) = packBody objects :=
    List.take_left' rfl
  have hdrop1 : ((packBody objects).set i b ++ sha1 (packBody objects)).drop
      ((packBody objects).length) = sha1 (packBody objects) :=
    List.drop_left' (by simp)
  rw [h20, hset, createPack_eq, htake1, htake2] at hdig
  rw [hset]
  have hlen2 : ((packBody objects).set i b ++ sha1 (packBody objects)).length
      = (packBody objects).length + 20 := by
    simp [sha1_length]
  unfold parsePackFileSimple
  rw [hlen2]
  rw [if_neg (by omega)]
  have h20b : (packBody objects).length + 20 - 20 = (packBody objects).length := by
    omega
  rw [h20b, htake1, hdrop1, if_pos hdig]

/-- Witness for C2: flipping byte 12 (the first object header byte) of the
pack of a single blob to zero is rejected with the checksum error. -/
theorem c2_witness :
    parsePackFileSimple ((createPack [blobA]).set 12 0) =
      .error "Pack file checksum verification failed" :=
  c2_byte_flip_rejected_by_checksum [blobA] 12 0 (by decide) (by decide)
    (by decide)

/-- A successful map lookup means the name is among the map keys. -/
theorem refsGet_mem {refs : List (String × GitRef)} {x : String} {r : GitRef}
    (h : refsGet refs x = some r) : x ∈ refs.map Prod.fst := by
  unfold refsGet at h
  rcases hf : refs.find? (fun p => p.1 == x) with _ | p
  · rw [hf] at h
    simp at h
  · have hmem := List.mem_of_find?_eq_some hf
    have hp : p.1 = x := by simpa using List.find?_some hf
    exact hp ▸ List.mem_map_of_mem Prod.fst hmem

/-- A duplicate-free list contained in another list is no longer than the
latter's deduplication. -/
theorem nodup_subset_length {l names : List String} (hnd : l.Nodup)
    (hsub : ∀ x ∈ l, x ∈ names) : l.length ≤ names.dedup.length := by
  have h1 : l.toFinset.card = l.length := List.toFinset_card_of_nodup hnd
  have h2 : names.dedup.toFinset.card = names.dedup.length :=
    List.toFinset_card_of_nodup (List.nodup_dedup names)
  have hsub2 : l.toFinset ⊆ names.dedup.toFinset := by
    intro x hx
    rw [List.mem_toFinset] at hx
    rw [List.mem_toFinset, List.mem_dedup]
    exact hsub x hx
  calc l.length = l.toFinset.card := h1.symm
    _ ≤ names.dedup.toFinset.card := Finset.card_le_card hsub2
    _ = names.dedup.length := h2

/-- Every name on a chain is a key of the ref map. -/
theorem IsRefChain_mem (refs : List (String × GitRef)) (id : String) :
    ∀ l : List String, IsRefChain refs l id →
      ∀ x ∈ l, x ∈ refs.map Prod.fst := by
  intro l
  induction l with
  | nil => intro hc; simp [IsRefChain] at hc
  | cons n rest ih =>
      intro hc x hx
      cases rest with
      | nil =>
          simp only [IsRefChain] at hc
          rcases hc with ⟨r, hg, _, _⟩
          rcases List.mem_singleton.mp hx with rfl
          exact refsGet_mem hg
      | cons m rest2 =>
          simp only [IsRefChain] at hc
          rcases hc with ⟨r, hg, _, _, hc2⟩
          rcases List.mem_cons.mp hx with rfl | hx2
          · exact refsGet_mem hg
          · exact ih hc2 x hx2

/-- Following a duplicate-free chain disjoint from the visited set, the
resolve loop returns the target of the chain's final non-symbolic ref. -/
theorem resolveRefAux_chain (refs : List (String × GitRef)) (id : String) :
    ∀ l : List String, ∀ fuel : Nat, ∀ visited : List String,
      IsRefChain refs l id → l.Nodup → (∀ x ∈ l, x ∉ visited) →
      l.length ≤ fuel →
      resolveRefAux refs fuel (l.headD "") visited = some (.ok id) := by
  intro l
  induction l with
  | nil => intro fuel visited hc; simp [IsRefChain] at hc
  | cons n rest ih =>
      intro fuel visited hc hnd hdis hf
      cases fuel with
      | zero => simp at hf
      | succ f =>
          have hnv : n ∉ visited := hdis n (List.mem_cons_self n rest)
          cases rest with
          | nil =>
              simp only [IsRefChain] at hc
              rcases hc with ⟨r, hg, hsym, htg⟩
              simp [resolveRefAux, hnv, hg, hsym, htg]
          | cons m rest2 =>
              simp only [IsRefChain] at hc
              rcases hc with ⟨r, hg, hsym, htg, hc2⟩
              have hstep : resolveRefAux refs (f + 1) n visited
                  = resolveRefAux refs f r.target (n :: visited) := by
                simp [resolveRefAux, hnv, hg, hsym]
              simp only [List.headD_cons]
              rw [hstep, htg]
              have hgoal := ih f (n :: visited) hc2 hnd.of_cons ?_ ?_
              · simpa using hgoal
              · intro x hx
                have hxl := hdis x (List.mem_cons_of_mem n hx)
                have hxn : x ≠ n := by
                  intro hxeq
                  subst hxeq
                  exact (List.nodup_cons.mp hnd).1 hx
                simp [hxn, hxl]
              · have := List.length_cons (m :: rest2)
                simp at hf ⊢
                omega

/-- C7: resolve_ref follows the symbolic chain and returns the target of
the first non-symbolic ref reached (for any ref map and any duplicate-free
chain); in particular HEAD resolving through symbolic refs/heads/main to a
40-character id yields that id, and the cyclic chain HEAD, A, B, A fails
with the circular-reference error. -/
theorem c7_resolve_ref_follows_chain :
    (∀ refs : List (String × GitRef), ∀ l : List String, ∀ id : String,
      IsRefChain refs l id → l.Nodup →
      resolveRef refs (l.headD "") = .ok id) ∧
    (∀ id : String, id.length = 40 →
      resolveRef (refsChainDemo id) "HEAD" = .ok id) ∧
    resolveRef refsCycleDemo "HEAD" =
      .error "Circular reference detected: A" := by
  refine ⟨?_, ?_, ?_⟩
  · intro refs l id hc hnd
    have hsub := IsRefChain_mem refs id l hc
    have hlen : l.length ≤ ((refs.map Prod.fst).dedup).length :=
      nodup_subset_length hnd hsub
    unfold resolveRef
    rw [resolveRefAux_chain refs id l _ [] hc hnd (by simp) (by omega)]
    rfl
  · intro id _
    rfl
  · decide

/-- Witness for C7: the two concrete scenarios, with the general clause
instantiated at the demonstration chain map. -/
theorem c7_witness :
    resolveRef (refsChainDemo hashA) "HEAD" = .ok hashA ∧
    resolveRef refsCycleDemo "HEAD" =
      .error "Circular reference detected: A" :=
  ⟨c7_resolve_ref_follows_chain.2.1 hashA (by decide),
   c7_resolve_ref_follows_chain.2.2⟩

/-- With more fuel than there are distinct unvisited map keys, the resolve
loop always delivers a result (it never exhausts its fuel): every
non-final iteration moves a distinct key into the visited set. -/
theorem resolveRefAux_fuel (refs : List (String × GitRef)) :
    ∀ fuel : Nat, ∀ current : String, ∀ visited : List String,
      ((refs.map Prod.fst).filter
        (fun x => ! visited.contains x)).dedup.length < fuel →
      resolveRefAux refs fuel current visited ≠ none := by
  intro fuel
  induction fuel with
  | zero => intro current visited h; omega
  | succ f ih =>
      intro current visited h
      by_cases hv : current ∈ visited
      · simp [resolveRefAux, hv]
      · rcases hg : refsGet refs current with _ | r
        · simp [resolveRefAux, hv, hg]
        · by_cases hs : r.isSymbolic = true
          · have hstep : resolveRefAux refs (f + 1) current visited
                = resolveRefAux refs f r.target (current :: visited) := by
              simp [resolveRefAux, hv, hg, hs]
            rw [hstep]
            apply ih
            have hmem : current ∈ refs.map Prod.fst := refsGet_mem hg
            set A := ((refs.map Prod.fst).filter
              (fun x => ! visited.contains x)).dedup with hA
            set B := ((refs.map Prod.fst).filter
              (fun x => ! (current :: visited).contains x)).dedup with hB
            have hBlt : B.length < A.length := by
              have hAnd : A.Nodup := List.nodup_dedup _
              have hBnd : B.Nodup := List.nodup_dedup _
              have hAcard : A.toFinset.card = A.length :=
                List.toFinset_card_of_nodup hAnd
              have hBcard : B.toFinset.card = B.length :=
                List.toFinset_card_of_nodup hBnd
              have hcurA : current ∈ A.toFinset := by
                rw [List.mem_toFinset, hA, List.mem_dedup, List.mem_filter]
                exact ⟨hmem, by simpa [List.contains, List.elem_eq_mem] using hv⟩
              have hsubBA : B.toFinset ⊆ A.toFinset.erase current := by
                intro x hx
                rw [List.mem_toFinset, hB, List.mem_dedup, List.mem_filter] at hx
                rcases hx with ⟨hxm, hxc⟩
                simp [List.contains, List.elem_eq_mem] at hxc
                rw [Finset.mem_erase]
                refine ⟨hxc.1, ?_⟩
                rw [List.mem_toFinset, hA, List.mem_dedup, List.mem_filter]
                refine ⟨hxm, ?_⟩
                simp [List.contains, List.elem_eq_mem]
                exact hxc.2
              calc B.length = B.toFinset.card := hBcard.symm
                _ ≤ (A.toFinset.erase current).card :=
                    Finset.card_le_card hsubBA
                _ = A.toFinset.card - 1 := Finset.card_erase_of_mem hcurA
                _ < A.toFinset.card := by
                    have : 0 < A.toFinset.card := Finset.card_pos.mpr ⟨current, hcurA⟩
                    omega
                _ = A.length := hAcard
            omega
          · simp [resolveRefAux, hv, hg, hs]

/-- C10: resolve_ref terminates on every finite ref map and every starting
name: with fuel one greater than the number of distinct ref names the loop
always yields a result from an empty visited set, because each non-final
iteration inserts a name not previously visited. -/
theorem c10_resolve_ref_terminates (refs : List (String × GitRef))
    (name : String) :
    resolveRefAux refs ((refs.map Prod.fst).dedup.length + 1) name [] ≠
      none := by
  apply resolveRefAux_fuel
  have hfe : (refs.map Prod.fst).filter
      (fun x => ! ([] : List String).contains x) = refs.map Prod.fst := by
    simp [List.contains]
  rw [hfe]
  omega

/-! ## Hex length-prefix lemmas -/

/-- Folding hex digits never decreases the accumulator. -/
theorem hexFoldVal_le (ds : List Nat) : ∀ acc : Nat, acc ≤ hexFoldVal acc ds := by
  induction ds with
  | nil => intro acc; exact le_rfl
  | cons d rest ih =>
      intro acc
      calc acc ≤ acc * 16 + hexDigitValD d := by omega
        _ ≤ hexFoldVal (acc * 16 + hexDigitValD d) rest := ih _
        _ = hexFoldVal acc (d :: rest) := rfl

/-- On all-hex input whose value fits u16, the positive digit loop of
from_str_radix returns exactly the folded value. -/
theorem fromRadixPos_eq (ds : List Nat) :
    ∀ acc : Nat, allHexDigits ds = true → hexFoldVal acc ds ≤ 65535 →
      fromRadixPos ds acc = some (hexFoldVal acc ds) := by
  induction ds with
  | nil => intro acc _ _; rfl
  | cons d rest ih =>
      intro acc hall hle
      rcases hall2 : hexDigitVal d with _ | v
      · exfalso
        have := (List.all_eq_true.mp hall) d (List.mem_cons_self d rest)
        rw [hall2] at this
        simp at this
      · have hvd : hexDigitValD d = v := by simp [hexDigitValD, hall2]
        have hstep : hexFoldVal acc (d :: rest) =
            hexFoldVal (acc * 16 + v) rest := by
          simp [hexFoldVal, hvd]
        have hbound : acc * 16 + v ≤ 65535 := by
          have h1 := hexFoldVal_le rest (acc * 16 + v)
          rw [hstep] at hle
          omega
        have hallr : allHexDigits rest = true := by
          have := List.all_eq_true.mp hall
          exact List.all_eq_true.mpr fun x hx => this x (List.mem_cons_of_mem d hx)
        show fromRadixPos (d :: rest) acc = _
        rw [hstep]
        simp only [fromRadixPos, hall2]
        rw [if_neg (by omega)]
        exact ih (acc * 16 + v) hallr (hstep ▸ hle)

/-- Leading zero digits do not change the folded value. -/
theorem hexFoldVal_zeros (k : Nat) : hexFoldVal 0 (List.replicate k 48) = 0 := by
  induction k with
  | zero => rfl
  | succ j ih =>
      show hexFoldVal 0 (48 :: List.replicate j 48) = 0
      have : hexFoldVal 0 (48 :: List.replicate j 48) =
          hexFoldVal (0 * 16 + hexDigitValD 48) (List.replicate j 48) := rfl
      rw [this]
      simpa [hexDigitValD, hexDigitVal] using ih

/-- Decoding a lowercase hex digit character recovers its value. -/
theorem hexDigitVal_chr : ∀ d : Nat, d < 16 →
    hexDigitVal (hexDigitChr d) = some d := by decide

/-- The minimal hex representation folds back to the encoded number. -/
theorem hexRepAux_val : ∀ fuel n : Nat, n ≤ fuel →
    hexFoldVal 0 (hexRepAux fuel n) = n := by
  intro fuel
  induction fuel with
  | zero =>
      intro n hn
      interval_cases n
      rfl
  | succ f ih =>
      intro n hn
      cases n with
      | zero => rfl
      | succ m =>
          show hexFoldVal 0
            (hexRepAux f ((m + 1) / 16) ++ [hexDigitChr ((m + 1) % 16)]) = m + 1
          have hdiv : (m + 1) / 16 ≤ f := by
            have h2 : (m + 1) / 16 < m + 1 :=
              Nat.div_lt_self (Nat.succ_pos m) (by norm_num)
            omega
          have ihv := ih ((m + 1) / 16) hdiv
          have hm : hexDigitValD (hexDigitChr ((m + 1) % 16)) = (m + 1) % 16 := by
            have hlt : (m + 1) % 16 < 16 := Nat.mod_lt _ (by norm_num)
            simp [hexDigitValD, hexDigitVal_chr _ hlt]
          rw [hexFoldVal, List.foldl_append]
          rw [hexFoldVal] at ihv
          simp only [List.foldl_cons, List.foldl_nil]
          rw [ihv, hm]
          have := Nat.div_add_mod (m + 1) 16
          omega

/-- The minimal hex representation consists of hex digits. -/
theorem hexRepAux_hex : ∀ fuel n : Nat, allHexDigits (hexRepAux fuel n) = true := by
  intro fuel
  induction fuel with
  | zero =>
      intro n
      cases n <;> rfl
  | succ f ih =>
      intro n
      cases n with
      | zero => rfl
      | succ m =>
          show allHexDigits
            (hexRepAux f ((m + 1) / 16) ++ [hexDigitChr ((m + 1) % 16)]) = true
          rw [allHexDigits, List.all_append, Bool.and_eq_true]
          have hlt : (m + 1) % 16 < 16 := Nat.mod_lt _ (by norm_num)
          exact ⟨ih _, by simp [hexDigitVal_chr _ hlt]⟩

/-- Digit-count bound for the minimal hex representation. -/
theorem hexRepAux_len : ∀ fuel n k : Nat, n ≤ fuel → n < 16 ^ k →
    (hexRepAux fuel n).length ≤ k := by
  intro fuel
  induction fuel with
  | zero =>
      intro n k hn _
      interval_cases n
      simp [hexRepAux]
  | succ f ih =>
      intro n k hn hk
      cases n with
      | zero => simp [hexRepAux]
      | succ m =>
          cases k with
          | zero =>
              simp at hk
          | succ k2 =>
              show (hexRepAux f ((m + 1) / 16) ++
                [hexDigitChr ((m + 1) % 16)]).length ≤ k2 + 1
              rw [List.length_append]
              have hdiv : (m + 1) / 16 ≤ f := by
                have h2 : (m + 1) / 16 < m + 1 :=
                  Nat.div_lt_self (Nat.succ_pos m) (by norm_num)
                omega
              have hlt : (m + 1) / 16 < 16 ^ k2 := by
                rw [Nat.div_lt_iff_lt_mul (by norm_num : 0 < 16)]
                calc m + 1 < 16 ^ (k2 + 1) := hk
                  _ = 16 ^ k2 * 16 := by ring
              have := ih ((m + 1) / 16) k2 hdiv hlt
              simp only [List.length_singleton]
              omega

/-- A hex digit byte is ASCII. -/
theorem hexDigit_lt (b : Nat) (h : (hexDigitVal b).isSome = true) : b < 128 := by
  unfold hexDigitVal at h
  split_ifs at h with h1 h2 h3
  · omega
  · omega
  · omega
  · simp at h

/-- Unfolding of the padded hex form for a positive value. -/
theorem toHexPad4_eq_of_ne (n : Nat) (h0 : n ≠ 0) :
    toHexPad4 n =
      List.replicate (4 - (hexRepAux n n).length) 48 ++ hexRepAux n n := by
  simp [toHexPad4, h0]

/-- For values that fit u16, the padded hex form has exactly four bytes. -/
theorem toHexPad4_length (n : Nat) (hn : n ≤ 65535) :
    (toHexPad4 n).length = 4 := by
  by_cases h0 : n = 0
  · subst h0
    rfl
  · rw [toHexPad4_eq_of_ne n h0, List.length_append, List.length_replicate]
    have h16 : (65536 : Nat) = 16 ^ 4 := by norm_num
    have hlen := hexRepAux_len n n 4 le_rfl (by omega)
    omega

/-- Every byte of the padded hex form is ASCII. -/
theorem toHexPad4_ascii (n : Nat) : ∀ b ∈ toHexPad4 n, b < 128 := by
  intro b hb
  by_cases h0 : n = 0
  · subst h0
    simp [toHexPad4] at hb
    omega
  · rw [toHexPad4_eq_of_ne n h0] at hb
    rcases List.mem_append.mp hb with hpad | hds
    · have := List.eq_of_mem_replicate hpad
      omega
    · have hhex := hexRepAux_hex n n
      have := (List.all_eq_true.mp hhex) b hds
      exact hexDigit_lt b (by simpa using this)

/-- Every byte of the padded hex form is a hex digit. -/
theorem toHexPad4_hex (n : Nat) :
    allHexDigits (toHexPad4 n) = true := by
  by_cases h0 : n = 0
  · subst h0
    rfl
  · rw [toHexPad4_eq_of_ne n h0, allHexDigits, List.all_append,
      Bool.and_eq_true]
    refine ⟨?_, hexRepAux_hex n n⟩
    exact List.all_eq_true.mpr fun x hx => by
      have := List.eq_of_mem_replicate hx
      subst this
      rfl

/-- Parsing the padded hex form of a u16-sized value recovers it. -/
theorem fromStrRadix16_toHexPad4 (n : Nat) (hn : n ≤ 65535) :
    fromStrRadix16 (toHexPad4 n) = some n := by
  have hval : hexFoldVal 0 (toHexPad4 n) = n := by
    by_cases h0 : n = 0
    · subst h0
      rfl
    · rw [toHexPad4_eq_of_ne n h0, hexFoldVal, List.foldl_append]
      have hz := hexFoldVal_zeros (4 - (hexRepAux n n).length)
      rw [hexFoldVal] at hz
      rw [hz]
      exact hexRepAux_val n n le_rfl
  have hhex := toHexPad4_hex n
  rcases hsh : toHexPad4 n with _ | ⟨c, rest⟩
  · have hl4 := toHexPad4_length n hn
    rw [hsh] at hl4
    simp at hl4
  · have hhex2 : allHexDigits (c :: rest) = true := by
      rw [← hsh]
      exact hhex
    have hval2 : hexFoldVal 0 (c :: rest) = n := by
      rw [← hsh]
      exact hval
    have hchex : (hexDigitVal c).isSome = true := by
      have := (List.all_eq_true.mp hhex2) c (List.mem_cons_self c rest)
      simpa using this
    have hc43 : c ≠ 43 := by
      intro he
      subst he
      simp [hexDigitVal] at hchex
    simp only [fromStrRadix16]
    rw [if_neg hc43]
    rw [fromRadixPos_eq (c :: rest) 0 hhex2 (by omega)]
    rw [hval2]

/-! ## UTF-8 lemmas -/

/-- A continuation read consumes exactly one byte. -/
theorem utf8ContRange_length (lo hi : Nat) :
    ∀ l r : List Nat, utf8ContRange lo hi l = some r → r.length < l.length := by
  intro l r h
  cases l with
  | nil => simp [utf8ContRange] at h
  | cons c rest =>
      simp only [utf8ContRange] at h
      split_ifs at h
      simp at h
      subst h
      simp

/-- Two chained continuation reads shrink the list. -/
theorem utf8ContRange_bind_length (lo1 hi1 lo2 hi2 : Nat) (rest r : List Nat)
    (h : (utf8ContRange lo1 hi1 rest).bind (utf8ContRange lo2 hi2) = some r) :
    r.length < rest.length := by
  rcases h1 : utf8ContRange lo1 hi1 rest with _ | r1
  · rw [h1] at h
    simp at h
  · rw [h1] at h
    simp only [Option.some_bind] at h
    have a1 := utf8ContRange_length lo1 hi1 rest r1 h1
    have a2 := utf8ContRange_length lo2 hi2 r1 r h
    omega

/-- Three chained continuation reads shrink the list. -/
theorem utf8ContRange_bind3_length (lo1 hi1 lo2 hi2 lo3 hi3 : Nat)
    (rest r : List Nat)
    (h : ((utf8ContRange lo1 hi1 rest).bind (utf8ContRange lo2 hi2)).bind
      (utf8ContRange lo3 hi3) = some r) :
    r.length < rest.length := by
  rcases h1 : (utf8ContRange lo1 hi1 rest).bind (utf8ContRange lo2 hi2)
      with _ | r1
  · rw [h1] at h
    simp at h
  · rw [h1] at h
    simp only [Option.some_bind] at h
    have a1 := utf8ContRange_bind_length lo1 hi1 lo2 hi2 rest r1 h1
    have a2 := utf8ContRange_length lo3 hi3 r1 r h
    omega

/-- A complete non-ASCII character consumes at least one byte after its
leading byte. -/
theorem utf8Step_length (b : Nat) (rest rest2 : List Nat)
    (h : utf8Step b rest = some rest2) : rest2.length ≤ rest.length := by
  unfold utf8Step at h
  split_ifs at h
  all_goals
    first
      | exact le_of_lt (utf8ContRange_length _ _ _ _ h)
      | exact le_of_lt (utf8ContRange_bind_length _ _ _ _ _ _ h)
      | exact le_of_lt (utf8ContRange_bind3_length _ _ _ _ _ _ _ _ h)

/-- A successful continuation read is unaffected by appended bytes. -/
theorem utf8ContRange_append (lo hi : Nat) (m : List Nat) :
    ∀ l r : List Nat, utf8ContRange lo hi l = some r →
      utf8ContRange lo hi (l ++ m) = some (r ++ m) := by
  intro l r h
  cases l with
  | nil => simp [utf8ContRange] at h
  | cons c rest =>
      simp only [utf8ContRange] at h
      split_ifs at h with hc
      simp at h
      subst h
      simp only [List.cons_append, utf8ContRange]
      rw [if_pos hc]

/-- Two chained continuation reads are unaffected by appended bytes. -/
theorem utf8ContRange_bind_append (lo1 hi1 lo2 hi2 : Nat) (m rest r : List Nat)
    (h : (utf8ContRange lo1 hi1 rest).bind (utf8ContRange lo2 hi2) = some r) :
    (utf8ContRange lo1 hi1 (rest ++ m)).bind (utf8ContRange lo2 hi2)
      = some (r ++ m) := by
  rcases h1 : utf8ContRange lo1 hi1 rest with _ | r1
  · rw [h1] at h
    simp at h
  · rw [h1] at h
    simp only [Option.some_bind] at h
    rw [utf8ContRange_append lo1 hi1 m rest r1 h1]
    simp only [Option.some_bind]
    exact utf8ContRange_append lo2 hi2 m r1 r h

/-- Three chained continuation reads are unaffected by appended bytes. -/
theorem utf8ContRange_bind3_append (lo1 hi1 lo2 hi2 lo3 hi3 : Nat)
    (m rest r : List Nat)
    (h : ((utf8ContRange lo1 hi1 rest).bind (utf8ContRange lo2 hi2)).bind
      (utf8ContRange lo3 hi3) = some r) :
    ((utf8ContRange lo1 hi1 (rest ++ m)).bind (utf8ContRange lo2 hi2)).bind
      (utf8ContRange lo3 hi3) = some (r ++ m) := by
  rcases h1 : (utf8ContRange lo1 hi1 rest).bind (utf8ContRange lo2 hi2)
      with _ | r1
  · rw [h1] at h
    simp at h
  · rw [h1] at h
    simp only [Option.some_bind] at h
    rw [utf8ContRange_bind_append lo1 hi1 lo2 hi2 m rest r1 h1]
    simp only [Option.some_bind]
    exact utf8ContRange_append lo3 hi3 m r1 r h

/-- A complete character at the front is read the same way when more bytes
follow. -/
theorem utf8Step_append (b : Nat) (m rest rest2 : List Nat)
    (h : utf8Step b rest = some rest2) :
    utf8Step b (rest ++ m) = some (rest2 ++ m) := by
  unfold utf8Step at h ⊢
  by_cases c1 : 194 ≤ b ∧ b ≤ 223
  · rw [if_pos c1] at h ⊢
    exact utf8ContRange_append _ _ m _ _ h
  · rw [if_neg c1] at h ⊢
    by_cases c2 : b = 224
    · rw [if_pos c2] at h ⊢
      exact utf8ContRange_bind_append _ _ _ _ m _ _ h
    · rw [if_neg c2] at h ⊢
      by_cases c3 : 225 ≤ b ∧ b ≤ 236
      · rw [if_pos c3] at h ⊢
        exact utf8ContRange_bind_append _ _ _ _ m _ _ h
      · rw [if_neg c3] at h ⊢
        by_cases c4 : b = 237
        · rw [if_pos c4] at h ⊢
          exact utf8ContRange_bind_append _ _ _ _ m _ _ h
        · rw [if_neg c4] at h ⊢
          by_cases c5 : 238 ≤ b ∧ b ≤ 239
          · rw [if_pos c5] at h ⊢
            exact utf8ContRange_bind_append _ _ _ _ m _ _ h
          · rw [if_neg c5] at h ⊢
            by_cases c6 : b = 240
            · rw [if_pos c6] at h ⊢
              exact utf8ContRange_bind3_append _ _ _ _ _ _ m _ _ h
            · rw [if_neg c6] at h ⊢
              by_cases c7 : 241 ≤ b ∧ b ≤ 243
              · rw [if_pos c7] at h ⊢
                exact utf8ContRange_bind3_append _ _ _ _ _ _ m _ _ h
              · rw [if_neg c7] at h ⊢
                by_cases c8 : b = 244
                · rw [if_pos c8] at h ⊢
                  exact utf8ContRange_bind3_append _ _ _ _ _ _ m _ _ h
                · rw [if_neg c8] at h ⊢
                  simp at h

/-- The validity check does not depend on the fuel once it covers the
length. -/
theorem utf8ValidAux_fuel : ∀ f1 : Nat, ∀ l : List Nat, ∀ f2 : Nat,
    l.length ≤ f1 → l.length ≤ f2 →
    utf8ValidAux f1 l = utf8ValidAux f2 l := by
  intro f1
  induction f1 with
  | zero =>
      intro l f2 h1 _
      have hl : l = [] := List.eq_nil_of_length_eq_zero (Nat.le_zero.mp h1)
      subst hl
      cases f2 <;> rfl
  | succ f ih =>
      intro l f2 h1 h2
      cases l with
      | nil => cases f2 <;> rfl
      | cons b rest =>
          cases f2 with
          | zero => simp at h2
          | succ f2p =>
              simp only [utf8ValidAux]
              simp only [List.length_cons] at h1 h2
              by_cases hb : b < 128
              · rw [if_pos hb, if_pos hb]
                exact ih rest f2p (by omega) (by omega)
              · rw [if_neg hb, if_neg hb]
                rcases hst : utf8Step b rest with _ | rest2
                · simp only [hst]
                · simp only [hst]
                  have hl := utf8Step_length b rest rest2 hst
                  exact ih rest2 f2p (by omega) (by omega)

/-- Appending to a valid list: validation continues with the appended
part. -/
theorem utf8ValidAux_append (m : List Nat) : ∀ fuel : Nat, ∀ l : List Nat,
    l.length ≤ fuel → utf8ValidAux fuel l = true →
    ∀ fuel2 : Nat, l.length + m.length ≤ fuel2 →
    utf8ValidAux fuel2 (l ++ m) = utf8ValidAux m.length m := by
  intro m0fuel
  induction m0fuel with
  | zero =>
      intro l h1 _ fuel2 h2
      have hl : l = [] := List.eq_nil_of_length_eq_zero (Nat.le_zero.mp h1)
      subst hl
      simp only [List.nil_append]
      exact utf8ValidAux_fuel fuel2 m m.length (by simpa using h2) le_rfl
  | succ f ih =>
      intro l h1 hv fuel2 h2
      cases l with
      | nil =>
          simp only [List.nil_append]
          exact utf8ValidAux_fuel fuel2 m m.length (by simpa using h2) le_rfl
      | cons b rest =>
          cases fuel2 with
          | zero => simp at h2
          | succ f2 =>
              simp only [utf8ValidAux] at hv
              simp only [List.cons_append, utf8ValidAux]
              simp only [List.append_eq]
              simp only [List.length_cons] at h1 h2
              by_cases hb : b < 128
              · rw [if_pos hb] at hv ⊢
                refine ih rest (by omega) hv f2 ?_
                omega
              · rw [if_neg hb] at hv ⊢
                rcases hst : utf8Step b rest with _ | rest2
                · rw [hst] at hv
                  simp at hv
                · rw [hst] at hv
                  simp only [] at hv
                  rw [utf8Step_append b m rest rest2 hst]
                  have hl := utf8Step_length b rest rest2 hst
                  exact ih rest2 (by omega) hv f2 (by omega)

/-- Validation of a valid list followed by anything continues with the
remainder: complete UTF-8 sequences align across the append boundary. -/
theorem utf8Valid_append (l m : List Nat) (h : utf8Valid l = true) :
    utf8Valid (l ++ m) = utf8Valid m := by
  unfold utf8Valid at h ⊢
  rw [List.length_append]
  exact utf8ValidAux_append m l.length l le_rfl h (l.length + m.length) le_rfl

/-- Pure ASCII lists pass the fueled validity check. -/
theorem utf8ValidAux_of_ascii : ∀ fuel : Nat, ∀ l : List Nat,
    l.length ≤ fuel → (∀ b ∈ l, b < 128) → utf8ValidAux fuel l = true := by
  intro fuel
  induction fuel with
  | zero =>
      intro l h1 _
      have hl : l = [] := List.eq_nil_of_length_eq_zero (Nat.le_zero.mp h1)
      subst hl
      rfl
  | succ f ih =>
      intro l h1 h
      cases l with
      | nil => rfl
      | cons b rest =>
          simp only [utf8ValidAux]
          rw [if_pos (h b (List.mem_cons_self b rest))]
          simp only [List.length_cons] at h1
          exact ih rest (by omega) fun x hx => h x (List.mem_cons_of_mem b hx)

/-- Pure ASCII byte lists are valid UTF-8. -/
theorem utf8Valid_of_ascii (l : List Nat) (h : ∀ b ∈ l, b < 128) :
    utf8Valid l = true := utf8ValidAux_of_ascii l.length l le_rfl h

/-! ## pkt-line round-trip lemmas -/

/-- Trimming trailing newlines of a newline-free line with one newline
appended gives back the line. -/
theorem trimEndNl_append (line : List Nat) (h : (10 : Nat) ∉ line) :
    trimEndNl (line ++ [10]) = line := by
  unfold trimEndNl
  rw [List.reverse_append]
  simp only [List.reverse_cons, List.reverse_nil, List.nil_append,
    List.singleton_append, List.dropWhile_cons]
  rw [if_pos (by decide)]
  have hdw : line.reverse.dropWhile (fun b => decide (b = 10)) = line.reverse := by
    cases hrev : line.reverse with
    | nil => rfl
    | cons c t =>
        rw [List.dropWhile_cons]
        have hc : c ∈ line := by
          rw [← List.mem_reverse, hrev]
          exact List.mem_cons_self c t
        have hcne : ¬ c = 10 := fun he => h (he ▸ hc)
        simp [hcne]
  rw [hdw, List.reverse_reverse]

/-- The byte stream of a framed line list, first line separated out. -/
theorem createPktLine_cons (line : List Nat) (L : List (List Nat)) :
    createPktLine (line :: L) =
      toHexPad4 (line.length + 1 + 4) ++ (line ++ 10 :: createPktLine L) := by
  simp [createPktLine, List.append_assoc]

/-- The framed stream of no lines is the flush packet. -/
theorem createPktLine_nil : createPktLine [] = [48, 48, 48, 48] := rfl

/-- One parsing step inverts one framing step, given a valid framed
tail. -/
theorem parsePktLineAux_roundtrip :
    ∀ L : List (List Nat), ∀ fuel : Nat,
      (∀ line ∈ L, utf8Valid line = true ∧ (10 : Nat) ∉ line ∧
        line.length + 5 ≤ 65535) →
      (createPktLine L).length < fuel →
      parsePktLineAux fuel (createPktLine L) = .ok L := by
  intro L
  induction L with
  | nil =>
      intro fuel _ hf
      rw [createPktLine_nil] at hf ⊢
      cases fuel with
      | zero => simp at hf
      | succ f =>
          have h1 : utf8Valid [48, 48, 48, 48] = true := by decide
          have h2 : fromStrRadix16 [48, 48, 48, 48] = some 0 := by decide
          simp only [parsePktLineAux]
          rw [if_neg (by norm_num)]
          simp only [List.take_succ_cons, List.take_zero]
          rw [if_pos h1, h2]
          simp
  | cons line L ih =>
      intro fuel hall hf
      rcases hall line (List.mem_cons_self line L) with ⟨hu, hnl, hlen⟩
      have hn : line.length + 1 + 4 ≤ 65535 := by omega
      have hhexlen : (toHexPad4 (line.length + 1 + 4)).length = 4 :=
        toHexPad4_length _ hn
      rw [createPktLine_cons] at hf ⊢
      have hdlen : (toHexPad4 (line.length + 1 + 4) ++
          (line ++ 10 :: createPktLine L)).length =
          4 + (line.length + 1) + (createPktLine L).length := by
        simp [hhexlen]
        omega
      cases fuel with
      | zero => omega
      | succ f =>
          simp only [parsePktLineAux]
          rw [if_neg (by omega)]
          have htk : (toHexPad4 (line.length + 1 + 4) ++
              (line ++ 10 :: createPktLine L)).take 4 =
              toHexPad4 (line.length + 1 + 4) := List.take_left' hhexlen
          have hdr : (toHexPad4 (line.length + 1 + 4) ++
              (line ++ 10 :: createPktLine L)).drop 4 =
              line ++ 10 :: createPktLine L := List.drop_left' hhexlen
          rw [htk, hdr]
          rw [if_pos (utf8Valid_of_ascii _ (toHexPad4_ascii _))]
          rw [fromStrRadix16_toHexPad4 _ hn]
          simp only []
          rw [if_neg (by omega), if_neg (by omega)]
          have hsplit : line ++ 10 :: createPktLine L =
              (line ++ [10]) ++ createPktLine L := by
            simp
          have hclen : line.length + 1 + 4 - 4 = (line ++ [10]).length := by
            simp
          rw [hsplit, hclen]
          rw [if_pos (by simp)]
          rw [List.take_left, List.drop_left]
          rw [utf8Valid_append line [10] hu]
          rw [if_pos (by decide)]
          rw [ih f (fun x hx => hall x (List.mem_cons_of_mem line hx))
            (by omega)]
          rw [trimEndNl_append line hnl]

/-- C5 amended: the pkt-line round trip parse_pkt_line after
create_pkt_line reproduces any list of lines that are valid UTF-8, free of
NUL and newline bytes, and short enough for the length prefix to fit in
four hex digits (len(line)+5 at most 0xffff). -/
theorem c5_round_trip_bounded (L : List (List Nat))
    (h : ∀ line ∈ L, utf8Valid line = true ∧ (0 : Nat) ∉ line ∧
      (10 : Nat) ∉ line ∧ line.length + 5 ≤ 65535) :
    parsePktLine (createPktLine L) = .ok L := by
  unfold parsePktLine
  exact parsePktLineAux_roundtrip L _
    (fun line hl => ⟨(h line hl).1, (h line hl).2.2.1, (h line hl).2.2.2⟩)
    (by omega)

/-- Witness for C5 amended at the singleton line "a". -/
theorem c5_witness : parsePktLine (createPktLine [[97]]) = .ok [[97]] :=
  c5_round_trip_bounded [[97]] (by decide)

/-- Taking from a run of 97-bytes with a tail. -/
theorem take_rep_tail (k n : Nat) (tail : List Nat) (h : n ≤ k) :
    (List.replicate k (97 : Nat) ++ tail).take n = List.replicate n 97 := by
  rw [List.take_append_of_le_length (by simp [h])]
  simp [List.take_replicate]
  omega

/-- Dropping from a run of 97-bytes with a tail. -/
theorem drop_rep_tail (k n : Nat) (tail : List Nat) (h : n ≤ k) :
    (List.replicate k (97 : Nat) ++ tail).drop n =
      List.replicate (k - n) 97 ++ tail := by
  rw [List.drop_append_of_le_length (by simp [h])]
  rw [List.drop_replicate]

/-- A run of 97-bytes is valid UTF-8. -/
theorem utf8Valid_rep97 (n : Nat) : utf8Valid (List.replicate n 97) = true :=
  utf8Valid_of_ascii _ fun b hb => by
    have := List.eq_of_mem_replicate hb
    omega

/-- Third packet read of the oversized-line counterexample: the length
prefix aaaa declares 0xaaaa bytes but fewer remain. -/
theorem c5_cx_step3 :
    parsePktLineAux 65540 (List.replicate 17750 97 ++ [10, 48, 48, 48, 48]) =
      .error "Packet extends beyond data" := by
  rw [parsePktLineAux.eq_2]
  rw [if_neg (by rw [List.length_append, List.length_replicate]; norm_num)]
  rw [take_rep_tail 17750 4 _ (by norm_num)]
  rw [if_pos (utf8Valid_rep97 4)]
  rw [show fromStrRadix16 (List.replicate 4 97) = some 43690 from by decide]
  simp only []
  rw [if_neg (by norm_num), if_neg (by norm_num)]
  rw [drop_rep_tail 17750 4 _ (by norm_num)]
  rw [if_neg (by rw [List.length_append, List.length_replicate]; norm_num)]

/-- Second packet read of the oversized-line counterexample: the prefix
aaaa declares 0xaaaa bytes, which are present, but the read after it
fails. -/
theorem c5_cx_step2 :
    parsePktLineAux 65541 (List.replicate 61440 97 ++ [10, 48, 48, 48, 48]) =
      .error "Packet extends beyond data" := by
  rw [parsePktLineAux.eq_2]
  rw [if_neg (by rw [List.length_append, List.length_replicate]; norm_num)]
  rw [take_rep_tail 61440 4 _ (by norm_num)]
  rw [if_pos (utf8Valid_rep97 4)]
  rw [show fromStrRadix16 (List.replicate 4 97) = some 43690 from by decide]
  simp only []
  rw [if_neg (by norm_num), if_neg (by norm_num)]
  rw [drop_rep_tail 61440 4 _ (by norm_num)]
  rw [if_pos (by rw [List.length_append, List.length_replicate]; norm_num)]
  rw [take_rep_tail 61436 (43690 - 4) _ (by norm_num)]
  rw [if_pos (utf8Valid_rep97 (43690 - 4))]
  rw [drop_rep_tail 61436 (43690 - 4) _ (by norm_num)]
  rw [show (61436 : Nat) - (43690 - 4) = 17750 from by norm_num]
  rw [c5_cx_step3]

/-- The framed form of one 65531-byte line: the length prefix needs five
hex digits, so the frame no longer follows the four-digit format. -/
theorem c5_cx_shape :
    createPktLine [List.replicate 65531 97] =
      [49, 48, 48, 48] ++
        (48 :: (List.replicate 65531 97 ++ [10, 48, 48, 48, 48])) := by
  rw [createPktLine_cons]
  rw [show (List.replicate 65531 (97 : Nat)).length + 1 + 4 = 65536 from by
    rw [List.length_replicate]]
  rw [show toHexPad4 65536 = [49, 48, 48, 48, 48] from by decide]
  rw [createPktLine_nil]
  simp only [List.cons_append, List.nil_append]

/-- C5 counterexample: for a newline-free, NUL-free line of 65531 bytes the
round trip fails: create_pkt_line emits a five-hex-digit length prefix,
parse_pkt_line reads only four of its digits, mis-frames the stream, and
errors instead of returning the line. -/
theorem c5_counterexample :
    parsePktLine (createPktLine [List.replicate 65531 97]) ≠
      .ok [List.replicate 65531 97] := by
  have hlen4 : ([49, 48, 48, 48] : List Nat).length = 4 := rfl
  have hcontent : utf8Valid (48 :: List.replicate 4091 97) = true := by
    apply utf8Valid_of_ascii
    intro b hb
    rcases List.mem_cons.mp hb with rfl | hb2
    · norm_num
    · have := List.eq_of_mem_replicate hb2
      omega
  have h1 : ((48 : Nat) :: (List.replicate 65531 97 ++
      [10, 48, 48, 48, 48])).length =
      (List.replicate 65531 (97 : Nat) ++ [10, 48, 48, 48, 48]).length + 1 :=
    List.length_cons _ _
  have h2 : (List.replicate 65531 (97 : Nat) ++ [10, 48, 48, 48, 48]).length
      = 65536 := by
    rw [List.length_append, List.length_replicate]
    norm_num
  have hdl : ([49, 48, 48, 48] ++
      (48 :: (List.replicate 65531 (97 : Nat) ++
        [10, 48, 48, 48, 48]))).length = 65541 := by
    rw [List.length_append, h1, h2]
    norm_num
  have herr : parsePktLine (createPktLine [List.replicate 65531 97]) =
      .error "Packet extends beyond data" := by
    rw [c5_cx_shape]
    unfold parsePktLine
    rw [hdl]
    rw [parsePktLineAux.eq_2]
    rw [if_neg (by rw [hdl]; norm_num)]
    rw [List.take_left' hlen4]
    rw [if_pos (by decide : utf8Valid [49, 48, 48, 48] = true)]
    rw [show fromStrRadix16 [49, 48, 48, 48] = some 4096 from by decide]
    simp only []
    rw [if_neg (by norm_num), if_neg (by norm_num)]
    rw [List.drop_left' hlen4]
    rw [if_pos (by rw [h1, h2]; norm_num)]
    rw [show (4096 : Nat) - 4 = 4091 + 1 from rfl]
    rw [List.take_succ_cons, List.drop_succ_cons]
    rw [take_rep_tail 65531 4091 _ (by norm_num)]
    rw [drop_rep_tail 65531 4091 _ (by norm_num)]
    rw [show (65531 : Nat) - 4091 = 61440 from rfl]
    rw [if_pos hcontent]
    rw [c5_cx_step2]
  rw [herr]
  exact fun hc => Except.noConfusion hc

end GitSpec
